import Mathlib

/-!
Verification development for the bk8601-gui I-V sweep application
(src/src/main.py).  The sweep controller, its instrument abstraction,
the protection logic and the curve-analysis code are embedded shallowly:
numeric values are idealized to rationals (controller side) and reals
(simulated diode model), SCPI command strings are represented by a
structured command type, and the GUI/plotting/persistence collaborators
are abstracted into the returned data and event traces.
-/

namespace BK8601

/-- Operating mode of the electronic load: constant current (CC, SCPI
function CURR) or constant voltage (CV, SCPI function VOLT).  Mirrors the
mode dropdown of IVAppCC and the FUNC state of SimulatedInstrument. -/
inductive Mode
  | CC
  | CV
  deriving DecidableEq, Repr

/-- Typed counterpart of the values parsed from the GUI fields at the top
of IVAppCC.start_sweep (main.py lines 291-301): start/end/step of the
sweep, the optional protection limits, the sense mode, whether an
instrument is selected at all, and whether the simulated instrument was
chosen.  The step delay only paces the loop and is omitted. -/
structure Config where
  mode : Mode
  istart : ℚ
  iend : ℚ
  istep : ℚ
  voltageLimit : Option ℚ
  currentLimit : Option ℚ
  fourWire : Bool
  instrSelected : Bool
  simulated : Bool
  deriving DecidableEq, Repr

/-- The four validation failures of IVAppCC.start_sweep that reject a sweep
before any adapter interaction (main.py lines 313, 318, 325, 332). -/
inductive VError
  | safetyVolt
  | safetyCurr
  | zeroStep
  | noInstrument
  deriving DecidableEq, Repr

/-- The validation sequence of IVAppCC.start_sweep (main.py lines 310-336),
checked in source order; returns the first failing check, none when the
configuration is accepted. -/
def validate (c : Config) : Option VError :=
  if c.mode = .CC ∧ c.voltageLimit = none then some .safetyVolt
  else if c.mode = .CV ∧ c.currentLimit = none then some .safetyCurr
  else if c.istep = 0 then some .zeroStep
  else if c.instrSelected = false then some .noInstrument
  else none

/-- Duplicate-suppression tolerance EPS = 1e-4 (main.py line 466). -/
def EPS : ℚ := 1 / 10000

/-- The store-data-point step of the measurement loop (main.py lines
466-470): the triple (actual_current, voltage, power) is appended to the
three parallel lists exactly when the current list is empty or the
measurement differs from the last appended one by more than EPS in current
or in voltage; otherwise all three lists are left unchanged. -/
def appendSample (currents voltages powers : List ℚ) (i v p : ℚ) :
    List ℚ × List ℚ × List ℚ :=
  if currents.isEmpty ∨ |i - currents.getLastD 0| > EPS ∨ |v - voltages.getLastD 0| > EPS then
    (currents ++ [i], voltages ++ [v], powers ++ [p])
  else
    (currents, voltages, powers)

/-- The effective sweep step of main.py lines 414 and 420: the user step is
negated exactly when the end value is strictly below the start value. -/
def sweepStep (istart iend istep : ℚ) : ℚ :=
  if iend ≥ istart then istep else -istep

/-- The setpoint trajectory of the measurement loop: the running value
starts at the sweep start and each iteration ends with the advancement
value += sweep_step (main.py lines 424 and 509). -/
def valueSeq (start step : ℚ) : ℕ → ℚ
  | 0 => start
  | k + 1 => valueSeq start step k + step

/-- Python max over a list, folding from the head; the code only applies it
to non-empty lists (main.py line 533). -/
def listMax : List ℚ → ℚ
  | [] => 0
  | x :: xs => xs.foldl max x

/-- Python min over a list, folding from the head; the code only applies it
to non-empty lists (main.py lines 1173 and 1177). -/
def listMin : List ℚ → ℚ
  | [] => 0
  | x :: xs => xs.foldl min x

/-- Python list.index for rationals: the first index holding the given
value (the code only calls it on values known to be present). -/
def idxOfQ (a : ℚ) : List ℚ → ℕ
  | [] => 0
  | x :: xs => if x = a then 0 else idxOfQ a xs + 1

/-- The maximum-power-point analysis at the end of start_sweep (main.py
lines 531-540): an empty powers list yields the explicit no-power-data
outcome (none); otherwise pmp = max(powers), idx = powers.index(pmp) (the
first occurrence) and the result carries (pmp, voltages[idx],
currents[idx]). -/
def analyze (currents voltages powers : List ℚ) : Option (ℚ × ℚ × ℚ) :=
  if powers.isEmpty then none
  else
    let pmp := listMax powers
    let idx := idxOfQ pmp powers
    some (pmp, voltages.getD idx 0, currents.getD idx 0)

/-- Photovoltaic statistics of one loaded curve. -/
structure Stats where
  pmp : ℚ
  vmp : ℚ
  imp : ℚ
  voc : ℚ
  isc : ℚ
  ff : ℚ
  deriving DecidableEq, Repr

/-- The per-curve statistics of ComparisonApp.update_statistics (main.py
lines 1160-1192): absolute current and power values are used; pmp/vmp/imp
are taken at the first index of maximal absolute power, voc is the voltage
at the first index of minimal absolute current, isc is the absolute
current at the first index of minimal voltage, and the fill factor is
pmp/(voc*isc)*100 guarded to 0 when voc*isc is not positive. -/
def compStats (current voltage power : List ℚ) : Stats :=
  let currentAbs := current.map (fun c => |c|)
  let powerAbs := power.map (fun p => |p|)
  let maxPowerIdx := idxOfQ (listMax powerAbs) powerAbs
  let pmp := powerAbs.getD maxPowerIdx 0
  let vmp := voltage.getD maxPowerIdx 0
  let imp := currentAbs.getD maxPowerIdx 0
  let minCurrentIdx := idxOfQ (listMin currentAbs) currentAbs
  let voc := voltage.getD minCurrentIdx 0
  let minVoltageIdx := idxOfQ (listMin voltage) voltage
  let isc := currentAbs.getD minVoltageIdx 0
  let ff := if voc * isc > 0 then pmp / (voc * isc) * 100 else 0
  { pmp := pmp, vmp := vmp, imp := imp, voc := voc, isc := isc, ff := ff }

/-! Helper lemmas about the Python-style fold maximum/minimum and first
index. -/

lemma foldl_max_init_le (xs : List ℚ) : ∀ x : ℚ, x ≤ xs.foldl max x := by
  induction xs with
  | nil => intro x; simp
  | cons y ys ih =>
    intro x
    calc x ≤ max x y := le_max_left x y
    _ ≤ ys.foldl max (max x y) := ih (max x y)

lemma foldl_max_mem (xs : List ℚ) : ∀ x : ℚ, xs.foldl max x = x ∨ xs.foldl max x ∈ xs := by
  induction xs with
  | nil => intro x; left; rfl
  | cons y ys ih =>
    intro x
    have hfold : (y :: ys).foldl max x = ys.foldl max (max x y) := rfl
    rcases ih (max x y) with h | h
    · rcases max_choice x y with hm | hm
      · left; rw [hfold, h, hm]
      · right; rw [hfold, h, hm]; exact List.mem_cons_self y ys
    · right
      rw [hfold]
      exact List.mem_cons_of_mem y h

lemma foldl_max_le_of_mem (xs : List ℚ) :
    ∀ (x z : ℚ), z ∈ xs → z ≤ xs.foldl max x := by
  induction xs with
  | nil => intro x z hz; simp at hz
  | cons y ys ih =>
    intro x z hz
    rcases List.mem_cons.mp hz with h | h
    · subst h
      calc z ≤ max x z := le_max_right x z
      _ ≤ ys.foldl max (max x z) := foldl_max_init_le ys (max x z)
    · exact ih (max x y) z h

lemma listMax_mem (l : List ℚ) (h : l ≠ []) : listMax l ∈ l := by
  cases l with
  | nil => exact absurd rfl h
  | cons x xs =>
    rcases foldl_max_mem xs x with hm | hm
    · simp [listMax, hm]
    · simp [listMax]
      right; exact hm

lemma le_listMax (l : List ℚ) (z : ℚ) (hz : z ∈ l) : z ≤ listMax l := by
  cases l with
  | nil => simp at hz
  | cons x xs =>
    rcases List.mem_cons.mp hz with h | h
    · subst h; exact foldl_max_init_le xs z
    · exact foldl_max_le_of_mem xs x z h

lemma foldl_min_init_le (xs : List ℚ) : ∀ x : ℚ, xs.foldl min x ≤ x := by
  induction xs with
  | nil => intro x; simp
  | cons y ys ih =>
    intro x
    calc ys.foldl min (min x y) ≤ min x y := ih (min x y)
    _ ≤ x := min_le_left x y

lemma foldl_min_mem (xs : List ℚ) : ∀ x : ℚ, xs.foldl min x = x ∨ xs.foldl min x ∈ xs := by
  induction xs with
  | nil => intro x; left; rfl
  | cons y ys ih =>
    intro x
    have hfold : (y :: ys).foldl min x = ys.foldl min (min x y) := rfl
    rcases ih (min x y) with h | h
    · rcases min_choice x y with hm | hm
      · left; rw [hfold, h, hm]
      · right; rw [hfold, h, hm]; exact List.mem_cons_self y ys
    · right
      rw [hfold]
      exact List.mem_cons_of_mem y h

lemma foldl_min_le_of_mem (xs : List ℚ) :
    ∀ (x z : ℚ), z ∈ xs → xs.foldl min x ≤ z := by
  induction xs with
  | nil => intro x z hz; simp at hz
  | cons y ys ih =>
    intro x z hz
    rcases List.mem_cons.mp hz with h | h
    · subst h
      calc ys.foldl min (min x z) ≤ min x z := foldl_min_init_le ys (min x z)
      _ ≤ z := min_le_right x z
    · exact ih (min x y) z h

lemma listMin_mem (l : List ℚ) (h : l ≠ []) : listMin l ∈ l := by
  cases l with
  | nil => exact absurd rfl h
  | cons x xs =>
    rcases foldl_min_mem xs x with hm | hm
    · simp [listMin, hm]
    · simp [listMin]
      right; exact hm

lemma listMin_le (l : List ℚ) (z : ℚ) (hz : z ∈ l) : listMin l ≤ z := by
  cases l with
  | nil => simp at hz
  | cons x xs =>
    rcases List.mem_cons.mp hz with h | h
    · subst h; exact foldl_min_init_le xs z
    · exact foldl_min_le_of_mem xs x z h

lemma idxOfQ_lt_length (a : ℚ) (l : List ℚ) (h : a ∈ l) : idxOfQ a l < l.length := by
  induction l with
  | nil => simp at h
  | cons x xs ih =>
    by_cases hx : x = a
    · simp [idxOfQ, hx]
    · rcases List.mem_cons.mp h with h1 | h1
      · exact absurd h1.symm hx
      · simp only [idxOfQ, if_neg hx, List.length_cons]
        exact Nat.succ_lt_succ (ih h1)

lemma idxOfQ_getD (a : ℚ) (l : List ℚ) (h : a ∈ l) : l.getD (idxOfQ a l) 0 = a := by
  induction l with
  | nil => simp at h
  | cons x xs ih =>
    by_cases hx : x = a
    · simp [idxOfQ, hx]
    · rcases List.mem_cons.mp h with h1 | h1
      · exact absurd h1.symm hx
      · simp only [idxOfQ, if_neg hx]
        simpa using ih h1

lemma idxOfQ_first (a : ℚ) (l : List ℚ) :
    ∀ j, j < idxOfQ a l → l.getD j 0 ≠ a := by
  induction l with
  | nil => intro j hj; simp [idxOfQ] at hj
  | cons x xs ih =>
    intro j hj
    by_cases hx : x = a
    · simp [idxOfQ, hx] at hj
    · simp only [idxOfQ, if_neg hx] at hj
      cases j with
      | zero => simpa using hx
      | succ j0 =>
        have := ih j0 (Nat.lt_of_succ_lt_succ hj)
        simpa using this

lemma getD_mem (l : List ℚ) (j : ℕ) (h : j < l.length) : l.getD j 0 ∈ l := by
  induction l generalizing j with
  | nil => simp at h
  | cons x xs ih =>
    cases j with
    | zero => simp
    | succ j0 =>
      simp only [List.getD_cons_succ]
      exact List.mem_cons_of_mem x (ih j0 (by simpa using h))

/-- C2 counterexample: with start 0, end 10 and a user-entered step of -1,
the code of main.py line 414 keeps the negative step (end >= start takes the
user step unchanged), so the effective step does not have the sign of
end - start and the setpoint sequence decreases away from the end value. -/
theorem claimC2_counterexample :
    sweepStep 0 10 (-1) = -1 ∧ (0 : ℚ) < 10 - 0 ∧ ¬ (0 < sweepStep 0 10 (-1)) ∧
    valueSeq 0 (sweepStep 0 10 (-1)) 1 < valueSeq 0 (sweepStep 0 10 (-1)) 0 := by
  refine ⟨by with_unfolding_all decide, by with_unfolding_all decide,
    by with_unfolding_all decide, ?_⟩
  show valueSeq 0 (sweepStep 0 10 (-1)) 0 + sweepStep 0 10 (-1) < valueSeq 0 (sweepStep 0 10 (-1)) 0
  with_unfolding_all decide

/-- C2 as amended: the effective sweep step equals the user step when
end >= start and its negation otherwise, so for a positive user step the
direction is normalized toward the end value (increasing setpoints when
start < end, decreasing when end < start); a negative user step is not
normalized. -/
theorem claimC2_amended :
    ∀ s e st : ℚ, 0 < st →
      (s ≤ e → sweepStep s e st = st) ∧
      (e < s → sweepStep s e st = -st) ∧
      (s < e → 0 < sweepStep s e st) ∧
      (e < s → sweepStep s e st < 0) ∧
      (∀ k : ℕ, s < e → valueSeq s (sweepStep s e st) k < valueSeq s (sweepStep s e st) (k + 1)) ∧
      (∀ k : ℕ, e < s → valueSeq s (sweepStep s e st) (k + 1) < valueSeq s (sweepStep s e st) k) := by
  intro s e st hst
  have hup : s ≤ e → sweepStep s e st = st := by
    intro h; simp [sweepStep, h]
  have hdown : e < s → sweepStep s e st = -st := by
    intro h; simp [sweepStep, not_le.mpr h, le_of_lt h]
  refine ⟨hup, hdown, ?_, ?_, ?_, ?_⟩
  · intro h; rw [hup (le_of_lt h)]; exact hst
  · intro h; rw [hdown h]; simpa using hst
  · intro k h
    have hstep : valueSeq s (sweepStep s e st) (k + 1) =
        valueSeq s (sweepStep s e st) k + sweepStep s e st := rfl
    rw [hstep, hup (le_of_lt h)]
    exact lt_add_of_pos_right _ hst
  · intro k h
    have hstep : valueSeq s (sweepStep s e st) (k + 1) =
        valueSeq s (sweepStep s e st) k + sweepStep s e st := rfl
    rw [hstep, hdown h]
    exact add_lt_of_neg_right _ (by simpa using hst)

/-- Witness for the amended C2 at start 0, end 10, step 1. -/
theorem claimC2_witness :
    (0 : ℚ) < 1 ∧ sweepStep 0 10 1 = 1 ∧
    valueSeq 0 (sweepStep 0 10 1) 0 < valueSeq 0 (sweepStep 0 10 1) 1 := by
  have h := claimC2_amended 0 10 1 (by decide)
  exact ⟨by decide, h.1 (by decide), h.2.2.2.2.1 0 (by decide)⟩

/-- C5: the epsilon deduplication of main.py lines 466-470.  A measurement
within EPS of the last appended sample in both current and voltage leaves
the three parallel lists unchanged; the lists grow exactly when they are
empty or the measurement differs from the last appended one by more than
EPS in current or in voltage; and processing the same measurement twice in
a row is idempotent, so repeated identical reads never grow the set. -/
theorem claimC5_dedup :
    ∀ (cs vs ps : List ℚ) (i v p : ℚ),
      (cs ≠ [] → |i - cs.getLastD 0| ≤ EPS → |v - vs.getLastD 0| ≤ EPS →
        appendSample cs vs ps i v p = (cs, vs, ps)) ∧
      (appendSample cs vs ps i v p = (cs ++ [i], vs ++ [v], ps ++ [p]) ↔
        (cs = [] ∨ |i - cs.getLastD 0| > EPS ∨ |v - vs.getLastD 0| > EPS)) ∧
      appendSample (appendSample cs vs ps i v p).1 (appendSample cs vs ps i v p).2.1
        (appendSample cs vs ps i v p).2.2 i v p = appendSample cs vs ps i v p := by
  intro cs vs ps i v p
  have hiff : (cs.isEmpty = true ∨ |i - cs.getLastD 0| > EPS ∨ |v - vs.getLastD 0| > EPS) ↔
      (cs = [] ∨ |i - cs.getLastD 0| > EPS ∨ |v - vs.getLastD 0| > EPS) := by
    simp [List.isEmpty_iff]
  refine ⟨?_, ?_, ?_⟩
  · intro hne h1 h2
    have hcond : ¬ (cs.isEmpty = true ∨ |i - cs.getLastD 0| > EPS ∨ |v - vs.getLastD 0| > EPS) := by
      rw [hiff]
      push_neg
      exact ⟨hne, h1, h2⟩
    simp only [appendSample, if_neg hcond]
  · by_cases hc : cs.isEmpty = true ∨ |i - cs.getLastD 0| > EPS ∨ |v - vs.getLastD 0| > EPS
    · constructor
      · intro _; exact hiff.mp hc
      · intro _; simp only [appendSample, if_pos hc]
    · constructor
      · intro heq
        exfalso
        simp only [appendSample, if_neg hc] at heq
        have hlen := congrArg (fun t => t.1.length) heq
        simp at hlen
      · intro hr
        exact absurd (hiff.mpr hr) hc
  · by_cases hc : cs.isEmpty = true ∨ |i - cs.getLastD 0| > EPS ∨ |v - vs.getLastD 0| > EPS
    · simp only [appendSample, if_pos hc]
      have hlast1 : (cs ++ [i]).getLastD 0 = i := by
        simp [List.getLastD_concat]
      have hlast2 : (vs ++ [v]).getLastD 0 = v := by
        simp [List.getLastD_concat]
      have hcond2 : ¬ ((cs ++ [i]).isEmpty = true ∨ |i - (cs ++ [i]).getLastD 0| > EPS ∨
          |v - (vs ++ [v]).getLastD 0| > EPS) := by
        rw [hlast1, hlast2]
        push_neg
        refine ⟨by simp, ?_, ?_⟩ <;>
          · rw [sub_self, abs_zero]
            norm_num [EPS]
      rw [if_neg hcond2]
    · simp only [appendSample, if_neg hc]

/-- Witness for C5: appending a fresh point to an empty set grows it, and a
second identical read leaves it unchanged. -/
theorem claimC5_witness :
    appendSample [] [] [] 2 5 10 = ([2], [5], [10]) ∧
    appendSample [2] [5] [10] 2 5 10 = ([2], [5], [10]) := by
  have h := claimC5_dedup [] [] [] 2 5 10
  have h1 : appendSample [] [] [] 2 5 10 = ([2], [5], [10]) :=
    (h.2.1.mpr (Or.inl rfl)).trans (by decide)
  refine ⟨h1, ?_⟩
  have h2 := (claimC5_dedup [2] [5] [10] 2 5 10).1 (by decide)
    (by with_unfolding_all decide) (by with_unfolding_all decide)
  exact h2.trans (by decide)

/-- C7: the end-of-sweep analyzer of main.py lines 531-540.  An empty
powers list yields the explicit no-power-data outcome; on the sample set
with (voltage, current, power) rows (0,5,0), (10,4,40), (20,0,0) it yields
pmp 40, vmp 10, imp 4; and in general for a non-empty powers list it
returns the maximum power together with the voltage and current stored at
the first index attaining that maximum. -/
theorem claimC7_analyzer :
    analyze [] [] [] = none ∧
    analyze [5, 4, 0] [0, 10, 20] [0, 40, 0] = some (40, 10, 4) ∧
    ∀ cs vs ps : List ℚ, ps ≠ [] →
      idxOfQ (listMax ps) ps < ps.length ∧
      analyze cs vs ps =
        some (listMax ps, vs.getD (idxOfQ (listMax ps) ps) 0,
          cs.getD (idxOfQ (listMax ps) ps) 0) ∧
      listMax ps ∈ ps ∧
      (∀ q ∈ ps, q ≤ listMax ps) ∧
      ps.getD (idxOfQ (listMax ps) ps) 0 = listMax ps ∧
      (∀ j, j < idxOfQ (listMax ps) ps → ps.getD j 0 < listMax ps) := by
  refine ⟨by decide, by decide, ?_⟩
  intro cs vs ps hne
  have hmem := listMax_mem ps hne
  have hlt := idxOfQ_lt_length (listMax ps) ps hmem
  refine ⟨hlt, ?_, hmem, fun q hq => le_listMax ps q hq, idxOfQ_getD (listMax ps) ps hmem, ?_⟩
  · simp [analyze, List.isEmpty_iff, hne]
  · intro j hj
    have hne2 := idxOfQ_first (listMax ps) ps j hj
    have hjlen : j < ps.length := lt_trans hj hlt
    have hle : ps.getD j 0 ≤ listMax ps := le_listMax ps _ (getD_mem ps j hjlen)
    exact lt_of_le_of_ne hle hne2

/-- Witness for C7 on a list whose maximum power occurs twice: the first
occurrence (index 1) is selected. -/
theorem claimC7_witness :
    ([10, 40, 40] : List ℚ) ≠ [] ∧
    analyze [1, 2, 3] [4, 5, 6] [10, 40, 40] = some (40, 5, 2) := by
  have h := (claimC7_analyzer.2.2 [1, 2, 3] [4, 5, 6] [10, 40, 40] (by decide)).2.1
  exact ⟨by decide, h.trans (by decide)⟩

/-- C8: the comparison statistics of ComparisonApp.update_statistics
(main.py lines 1160-1192), computed over absolute current and power
values: voc is the voltage at the first index of minimal absolute current,
isc is the absolute current at the first index of minimal voltage, and the
fill factor is pmp/(voc*isc)*100 when voc*isc is positive and 0 otherwise;
on the concrete curve with rows (0,5,0), (10,4,40), (20,0,0) this yields
voc 20, isc 5, pmp 40 and a fill factor of 40. -/
theorem claimC8_statistics :
    compStats [5, 4, 0] [0, 10, 20] [0, 40, 0] =
      { pmp := 40, vmp := 10, imp := 4, voc := 20, isc := 5, ff := (40 : ℚ) } ∧
    ∀ cs vs ps : List ℚ, cs ≠ [] → vs ≠ [] →
      ((compStats cs vs ps).voc =
        vs.getD (idxOfQ (listMin (cs.map fun c => |c|)) (cs.map fun c => |c|)) 0) ∧
      idxOfQ (listMin (cs.map fun c => |c|)) (cs.map fun c => |c|) < cs.length ∧
      (∀ x ∈ cs.map fun c => |c|, listMin (cs.map fun c => |c|) ≤ x) ∧
      (∀ j, j < idxOfQ (listMin (cs.map fun c => |c|)) (cs.map fun c => |c|) →
        (cs.map fun c => |c|).getD j 0 ≠ listMin (cs.map fun c => |c|)) ∧
      ((compStats cs vs ps).isc = (cs.map fun c => |c|).getD (idxOfQ (listMin vs) vs) 0) ∧
      idxOfQ (listMin vs) vs < vs.length ∧
      (∀ x ∈ vs, listMin vs ≤ x) ∧
      (∀ j, j < idxOfQ (listMin vs) vs → vs.getD j 0 ≠ listMin vs) ∧
      ((compStats cs vs ps).voc * (compStats cs vs ps).isc > 0 →
        (compStats cs vs ps).ff =
          (compStats cs vs ps).pmp / ((compStats cs vs ps).voc * (compStats cs vs ps).isc) * 100) ∧
      ((compStats cs vs ps).voc * (compStats cs vs ps).isc ≤ 0 → (compStats cs vs ps).ff = 0) := by
  refine ⟨by with_unfolding_all decide, ?_⟩
  intro cs vs ps hcs hvs
  have hcabs : (cs.map fun c => |c|) ≠ [] := by
    simpa using hcs
  have hmemc := listMin_mem (cs.map fun c => |c|) hcabs
  have hltc : idxOfQ (listMin (cs.map fun c => |c|)) (cs.map fun c => |c|) < cs.length := by
    have := idxOfQ_lt_length _ _ hmemc
    simpa using this
  have hmemv := listMin_mem vs hvs
  have hltv := idxOfQ_lt_length _ _ hmemv
  refine ⟨by simp [compStats], hltc, fun x hx => listMin_le _ x hx,
    fun j hj => idxOfQ_first _ _ j hj, by simp [compStats], hltv,
    fun x hx => listMin_le _ x hx, fun j hj => idxOfQ_first _ _ j hj, ?_, ?_⟩
  · intro hpos
    simp only [compStats] at hpos ⊢
    rw [if_pos hpos]
  · intro hnonpos
    simp only [compStats] at hnonpos ⊢
    rw [if_neg (not_lt.mpr hnonpos)]

/-- Witness for C8: the concrete curve with voc 20, isc 5, pmp 40 has fill
factor 40. -/
theorem claimC8_witness :
    (compStats [5, 4, 0] [0, 10, 20] [0, 40, 0]).voc = 20 ∧
    (compStats [5, 4, 0] [0, 10, 20] [0, 40, 0]).ff = 40 := by
  have h := claimC8_statistics.2 [5, 4, 0] [0, 10, 20] [0, 40, 0] (by decide) (by decide)
  exact ⟨(h.1).trans (by decide), (h.2.2.2.2.2.2.2.2.1
    (by with_unfolding_all decide)).trans (by with_unfolding_all decide)⟩

/-! The SCPI command set written by the controller (main.py lines 350-512)
and understood by SimulatedInstrument.write (lines 672-705).  Commands are
represented structurally; the numeric payload type is a parameter so that
the controller side can use rationals while the simulated diode model runs
over the reals.  The 3-decimal formatting of setpoints in the f-strings is
idealized away (the exact value is carried). -/
inductive Cmd (α : Type)
  | rst
  | cls
  | func (m : Mode)
  | setCurr (x : α)
  | setVolt (x : α)
  | voltProtStat (b : Bool)
  | voltProt (x : α)
  | currProtStat (b : Bool)
  | currProt (x : α)
  | remSens (b : Bool)
  | inputOn
  | inputOff
  deriving DecidableEq, Repr

/-- The three queries the controller issues (FUNC?, MEAS:VOLT?,
MEAS:CURR?). -/
inductive Query
  | funcQ
  | measVolt
  | measCurr
  deriving DecidableEq, Repr

/-- State of SimulatedInstrument (main.py lines 660-670): operating
function, the two setpoints, and the protection enable flags and limits.
The FUNC strings CURR/VOLT are represented by Mode.CC/Mode.CV. -/
structure SimState where
  func : Mode
  current : ℝ
  voltage : ℝ
  voltProtOn : Bool
  voltProt : Option ℝ
  currProtOn : Bool
  currProt : Option ℝ

/-- Initial SimulatedInstrument state (main.py lines 662-670). -/
def simInitState : SimState :=
  { func := .CC, current := 0, voltage := 0, voltProtOn := false, voltProt := none,
    currProtOn := false, currProt := none }

/-- SimulatedInstrument.write (main.py lines 672-705): function selection,
setpoint assignment, protection enable/disable and protection limit
assignment; all other commands are no-ops. -/
def simWrite (s : SimState) : Cmd ℝ → SimState
  | .func m => { s with func := m }
  | .setCurr x => { s with current := x }
  | .setVolt x => { s with voltage := x }
  | .voltProtStat b => { s with voltProtOn := b }
  | .voltProt x => { s with voltProt := some x }
  | .currProtStat b => { s with currProtOn := b }
  | .currProt x => { s with currProt := some x }
  | _ => s

/-- Short-circuit current of the simulated solar cell (main.py line 719). -/
def Isc : ℝ := 5
/-- Open-circuit voltage of the simulated solar cell (main.py line 720). -/
def Voc : ℝ := 25
/-- Ideality factor of the simulated solar cell (main.py line 721). -/
def nId : ℝ := 1.5
/-- Thermal voltage of the simulated solar cell (main.py line 722). -/
def Vt : ℝ := 0.7

/-- SimulatedInstrument.query for MEAS:VOLT? (main.py lines 724-735): in
CurrentMode the diode equation is inverted for the current setpoint,
yielding V = Voc + n*Vt*ln(1 - I/Isc) for I below Isc and 0 otherwise;
when voltage protection is enabled with a limit below V the trip value
limit+5 is returned, else max(V, 0); in VoltageMode the raw voltage
setpoint is returned. -/
noncomputable def simMeasVolt (s : SimState) : ℝ :=
  match s.func with
  | .CC =>
    let I := s.current
    let V := if I < Isc then Voc + nId * Vt * Real.log (1 - I / Isc) else 0
    match s.voltProt with
    | some L => if s.voltProtOn ∧ V > L then L + 5 else max V 0
    | none => max V 0
  | .CV => s.voltage

/-- SimulatedInstrument.query for MEAS:CURR? (main.py lines 737-748): in
VoltageMode the diode equation I = Isc*(1 - exp((V - Voc)/(n*Vt))) is
evaluated at the voltage setpoint and clamped to be non-negative; when
current protection is enabled with a limit below I the trip value limit+5
is returned; in CurrentMode the raw current setpoint is returned. -/
noncomputable def simMeasCurr (s : SimState) : ℝ :=
  match s.func with
  | .CV =>
    let V := s.voltage
    let I := max (Isc * (1 - Real.exp ((V - Voc) / (nId * Vt)))) 0
    match s.currProt with
    | some L => if s.currProtOn ∧ I > L then L + 5 else I
    | none => I
  | .CC => s.current

/-- The round-trip experiment of the specification: from the initial state,
write CURR I, query MEAS:VOLT?, switch FUNC to VOLT, write that voltage as
the setpoint, and query MEAS:CURR?. -/
noncomputable def simRoundTrip (I : ℝ) : ℝ :=
  let s1 := simWrite simInitState (.setCurr I)
  let v := simMeasVolt s1
  let s2 := simWrite s1 (.func .CV)
  let s3 := simWrite s2 (.setVolt v)
  simMeasCurr s3

lemma simRoundTrip_eq (I : ℝ) (hI : I < Isc) :
    simRoundTrip I =
      max (Isc * (1 - Real.exp
        ((max (Voc + nId * Vt * Real.log (1 - I / Isc)) 0 - Voc) / (nId * Vt)))) 0 := by
  simp only [simRoundTrip, simWrite, simMeasVolt, simMeasCurr, simInitState, if_pos hI]

lemma exp_big : (5000000000 : ℝ) ≤ Real.exp (500 / 21) := by
  have h1 : (2.7 : ℝ) ≤ Real.exp 1 := le_of_lt (lt_trans (by norm_num) Real.exp_one_gt_d9)
  have h2 : (2.7 : ℝ) ^ (23 : ℕ) ≤ (Real.exp 1) ^ (23 : ℕ) :=
    pow_le_pow_left₀ (by norm_num) h1 23
  have h3 : (Real.exp 1) ^ (23 : ℕ) = Real.exp 23 := by
    rw [← Real.exp_nat_mul]
    norm_num
  have h4 : Real.exp 23 ≤ Real.exp (500 / 21) := Real.exp_le_exp.mpr (by norm_num)
  have h5 : (5000000000 : ℝ) ≤ (2.7 : ℝ) ^ (23 : ℕ) := by norm_num
  linarith

/-- C6: the SimulatedInstrument round trip.  For every current I with
0 ≤ I < Isc (protection disabled, as in the initial state), writing CURR I
and querying MEAS:VOLT? in CurrentMode, then switching to VoltageMode,
writing that voltage as the setpoint and querying MEAS:CURR?, reproduces I
within numerical tolerance 1e-9 (the two diode-equation branches are
mutual inverses up to the clamp of the returned voltage at 0, which only
matters within 5*exp(-500/21) of Isc); the model is deterministic: the
query results are pure functions of the state reached by the write
sequence. -/
theorem claimC6_sim_roundtrip :
    ∀ I : ℝ, 0 ≤ I → I < Isc →
      |simRoundTrip I - I| ≤ 1 / 10 ^ 9 ∧
      ∀ (s : SimState) (cmds : List (Cmd ℝ)),
        simMeasVolt (cmds.foldl simWrite s) = simMeasVolt (cmds.foldl simWrite s) ∧
        simMeasCurr (cmds.foldl simWrite s) = simMeasCurr (cmds.foldl simWrite s) := by
  intro I hI0 hI5
  refine ⟨?_, fun s cmds => ⟨rfl, rfl⟩⟩
  have hIscPos : (0 : ℝ) < Isc := by norm_num [Isc]
  have hpos : (0 : ℝ) < 1 - I / Isc := by
    have : I / Isc < 1 := (div_lt_one hIscPos).mpr hI5
    linarith
  have hnVt : nId * Vt ≠ 0 := by norm_num [nId, Vt]
  rw [simRoundTrip_eq I hI5]
  rcases le_or_lt 0 (Voc + nId * Vt * Real.log (1 - I / Isc)) with hV | hV
  · rw [max_eq_left hV]
    have harg : (Voc + nId * Vt * Real.log (1 - I / Isc) - Voc) / (nId * Vt) =
        Real.log (1 - I / Isc) := by
      field_simp
    rw [harg, Real.exp_log hpos]
    have hsimp : Isc * (1 - (1 - I / Isc)) = I := by
      field_simp
    rw [hsimp, max_eq_left hI0, sub_self, abs_zero]
    norm_num
  · rw [max_eq_right hV.le]
    have harg : ((0 : ℝ) - Voc) / (nId * Vt) = -(500 / 21) := by
      norm_num [Voc, nId, Vt]
    rw [harg]
    have hE1 : Real.exp (-(500 / 21)) < 1 := by
      rw [show (1 : ℝ) = Real.exp 0 from Real.exp_zero.symm]
      exact Real.exp_lt_exp.mpr (by norm_num)
    have hI1nonneg : 0 ≤ Isc * (1 - Real.exp (-(500 / 21))) :=
      mul_nonneg (le_of_lt hIscPos) (by linarith)
    rw [max_eq_left hI1nonneg]
    have hVnum : (25 : ℝ) + 1.05 * Real.log (1 - I / Isc) < 0 := by
      have : nId * Vt = (1.05 : ℝ) := by norm_num [nId, Vt]
      rw [← this]
      have : Voc = (25 : ℝ) := rfl
      rw [← this]
      linarith
    have hL : Real.log (1 - I / Isc) < -(500 / 21) := by linarith
    have hlow : 1 - I / Isc < Real.exp (-(500 / 21)) := by
      calc 1 - I / Isc = Real.exp (Real.log (1 - I / Isc)) := (Real.exp_log hpos).symm
      _ < Real.exp (-(500 / 21)) := Real.exp_lt_exp.mpr hL
    have hIsc5 : Isc = (5 : ℝ) := rfl
    have hgt : Isc * (1 - Real.exp (-(500 / 21))) < I := by
      rw [hIsc5]
      rw [hIsc5] at hlow
      nlinarith [hlow]
    have hup : I - Isc * (1 - Real.exp (-(500 / 21))) ≤ Isc * Real.exp (-(500 / 21)) := by
      rw [hIsc5]
      rw [hIsc5] at hI5
      nlinarith [hI5]
    have hEle : Real.exp (-(500 / 21)) ≤ (5000000000 : ℝ)⁻¹ := by
      rw [Real.exp_neg]
      exact inv_anti₀ (by norm_num) exp_big
    rw [abs_sub_comm, abs_of_nonneg (by linarith : 0 ≤ I - Isc * (1 - Real.exp (-(500 / 21))))]
    calc I - Isc * (1 - Real.exp (-(500 / 21))) ≤ Isc * Real.exp (-(500 / 21)) := hup
    _ ≤ 5 * (5000000000 : ℝ)⁻¹ := by
      rw [hIsc5]
      exact mul_le_mul_of_nonneg_left hEle (by norm_num)
    _ ≤ 1 / 10 ^ 9 := by norm_num

/-- Witness for C6 at I = 1 ampere. -/
theorem claimC6_witness :
    (0 : ℝ) ≤ 1 ∧ (1 : ℝ) < Isc ∧ |simRoundTrip 1 - 1| ≤ 1 / 10 ^ 9 := by
  have h := claimC6_sim_roundtrip 1 (by norm_num) (by norm_num [Isc])
  exact ⟨by norm_num, by norm_num [Isc], h.1⟩

/-! Controller-side embedding of IVAppCC.start_sweep.  The adapter (real
pyvisa resource or SimulatedInstrument) is abstracted into an interface
whose operations may fail (none models a raised communication error); the
controller records every interaction in an event trace.  Rationals stand
in for the float values exchanged with the instrument. -/

/-- A response to a query: a numeric string successfully parsed by float()
or the FUNC? mode string. -/
inductive Resp
  | num (x : ℚ)
  | modeResp (m : Mode)
  deriving DecidableEq, Repr

/-- An instrument adapter over internal state σ: write is fire-and-forget
but may fail, query returns a response (and may advance the state) or
fails.  A none result models a raised communication/timeout error. -/
structure Instr (σ : Type) where
  write : σ → Cmd ℚ → Option σ
  query : σ → Query → Option (σ × Resp)

/-- Events of a sweep, in order: adapter opened, a write attempt, a query
attempt, the adapter closed, and a poll of the stop flag with the value
read. -/
inductive Event
  | opened
  | write (c : Cmd ℚ)
  | queryEv (q : Query)
  | closed
  | poll (b : Bool)
  deriving DecidableEq, Repr

/-- Whether an event is an INPUT OFF write attempt. -/
def isOffW : Event → Bool
  | .write .inputOff => true
  | _ => false

/-- Whether an event is a close() call. -/
def isClosedE : Event → Bool
  | .closed => true
  | _ => false

/-- Whether an event is a stop-flag poll. -/
def isPollE : Event → Bool
  | .poll _ => true
  | _ => false

/-- Number of INPUT OFF write attempts in a trace. -/
def countOffW (tr : List Event) : ℕ :=
  tr.countP isOffW

/-- Number of close() calls in a trace. -/
def countCloseEv (tr : List Event) : ℕ :=
  tr.countP isClosedE

/-- Number of stop-flag polls in a trace. -/
def countPollEv (tr : List Event) : ℕ :=
  tr.countP isPollE

/-- One configuration write: the attempt is recorded in the trace and a
failure poisons the rest of the configuration phase (the exception
propagates to the outer handler of start_sweep). -/
def cfgW (M : Instr σ) (st : List Event × Option σ) (c : Cmd ℚ) : List Event × Option σ :=
  match st with
  | (tr, none) => (tr, none)
  | (tr, some s) => (tr ++ [.write c], M.write s c)

/-- The FUNC? query and conditional FUNC write of main.py lines 354-357:
the operating function is pushed only when the queried function differs
from the requested mode. -/
def cfgQFunc (M : Instr σ) (mode : Mode) (st : List Event × Option σ) :
    List Event × Option σ :=
  match st with
  | (tr, none) => (tr, none)
  | (tr, some s) =>
    match M.query s .funcQ with
    | none => (tr ++ [.queryEv .funcQ], none)
    | some (s1, r) =>
      if r = .modeResp mode then (tr ++ [.queryEv .funcQ], some s1)
      else (tr ++ [.queryEv .funcQ] ++ [.write (.func mode)], M.write s1 (.func mode))

/-- The setpoint command of the selected mode (main.py lines 415 and
421). -/
def setpointCmd (m : Mode) (x : ℚ) : Cmd ℚ :=
  match m with
  | .CC => .setCurr x
  | .CV => .setVolt x

/-- The configuration phase of start_sweep after validation (main.py lines
342-436): open the adapter, reset/clear for real hardware, align the
operating function, program or explicitly disable each protection limit,
push the sense mode, enable the input, write the initial setpoint and
enable the input again.  A failure at any point aborts the phase with the
trace collected so far. -/
def configPhase (M : Instr σ) (cfg : Config) (s0 : σ) : List Event × Option σ :=
  let st0 : List Event × Option σ := ([Event.opened], some s0)
  let st1 := if cfg.simulated then st0 else cfgW M (cfgW M st0 .rst) .cls
  let st2 := cfgQFunc M cfg.mode st1
  let st3 := match cfg.voltageLimit with
    | some l => cfgW M (cfgW M st2 (.voltProtStat true)) (.voltProt l)
    | none => cfgW M st2 (.voltProtStat false)
  let st4 := match cfg.currentLimit with
    | some l => cfgW M (cfgW M st3 (.currProtStat true)) (.currProt l)
    | none => cfgW M st3 (.currProtStat false)
  let st5 := cfgW M st4 (.remSens cfg.fourWire)
  let st6 := cfgW M st5 .inputOn
  let st7 := cfgW M st6 (setpointCmd cfg.mode cfg.istart)
  cfgW M st7 .inputOn

/-- The protection comparison of main.py lines 456-459: a limit is
violated when it is present and the measured value strictly exceeds it. -/
def protExceeds (limit : Option ℚ) (x : ℚ) : Bool :=
  match limit with
  | some l => decide (x > l)
  | none => false

/-- The mutable state of the measurement loop: adapter state, the running
setpoint value, the three parallel data lists, and the event trace. -/
structure LoopState (σ : Type) where
  instr : σ
  value : ℚ
  currents : List ℚ
  voltages : List ℚ
  powers : List ℚ
  trace : List Event

/-- How the measurement loop ended: all steps done, the user stop flag was
observed, a protection limit tripped, or a communication/parse error was
caught in the loop. -/
inductive LoopExit
  | completed
  | userStopped
  | tripped
  | commFault
  deriving DecidableEq, Repr

/-- Terminal outcome of one start_sweep call: validation rejected the
configuration, the configuration phase raised (outer handler, no
shutdown), or the loop finished with the given exit and the shutdown
INPUT OFF write succeeded (true) or itself raised (false, close
skipped). -/
inductive Outcome
  | invalid (e : VError)
  | setupFault
  | done (r : LoopExit) (shutdownOk : Bool)
  deriving DecidableEq, Repr

/-- Everything observable about one start_sweep call: outcome, event
trace, the three parallel data lists, the analysis outcome (none when the
analysis code was never reached, some none for the no-power-data message,
some (some t) for a computed summary), and the sweep_running flag after
the finally block. -/
structure RunResult where
  outcome : Outcome
  trace : List Event
  currents : List ℚ
  voltages : List ℚ
  powers : List ℚ
  analysis : Option (Option (ℚ × ℚ × ℚ))
  sweepRunning : Bool
  deriving DecidableEq, Repr

/-- The effective step of the configured sweep (main.py lines 414/420). -/
def sweepStepOf (cfg : Config) : ℚ :=
  sweepStep cfg.istart cfg.iend cfg.istep

/-- total_steps = int(abs((end - start) / step)) + 1 (main.py line 425);
int() truncation on the non-negative quotient is the floor. -/
def totalSteps (cfg : Config) : ℕ :=
  (Int.floor |(cfg.iend - cfg.istart) / sweepStepOf cfg|).toNat + 1

/-- The measurement loop of main.py lines 439-509, by recursion on the
remaining iteration count with the running iteration index for the stop
flag.  Each iteration polls the stop flag, writes the setpoint, queries
voltage then current, checks the protection limits, appends the sample
subject to deduplication and advances the setpoint.  Failures of the
adapter calls and non-numeric query responses are the caught in-loop
exceptions (break), as are protection violations. -/
def runLoop (M : Instr σ) (cfg : Config) (flag : ℕ → Bool) :
    ℕ → ℕ → LoopState σ → LoopExit × LoopState σ
  | 0, _, st => (.completed, st)
  | fuel + 1, count, st =>
    if flag count then
      (.userStopped, { st with trace := st.trace ++ [.poll (flag count)] })
    else
      let spc := setpointCmd cfg.mode st.value
      match M.write st.instr spc with
      | none =>
        (.commFault, { st with trace := st.trace ++ [.poll (flag count), .write spc] })
      | some sW =>
        match M.query sW .measVolt with
        | none =>
          (.commFault,
            { st with
                instr := sW,
                trace := st.trace ++ [.poll (flag count), .write spc, .queryEv .measVolt] })
        | some (sV, .modeResp _) =>
          (.commFault,
            { st with
                instr := sV,
                trace := st.trace ++ [.poll (flag count), .write spc, .queryEv .measVolt] })
        | some (sV, .num voltage) =>
          match M.query sV .measCurr with
          | none =>
            (.commFault,
              { st with
                  instr := sV,
                  trace := st.trace ++
                    [.poll (flag count), .write spc, .queryEv .measVolt, .queryEv .measCurr] })
          | some (sI, .modeResp _) =>
            (.commFault,
              { st with
                  instr := sI,
                  trace := st.trace ++
                    [.poll (flag count), .write spc, .queryEv .measVolt, .queryEv .measCurr] })
          | some (sI, .num actualCurrent) =>
            let power := voltage * actualCurrent
            let newTrace := st.trace ++
              [.poll (flag count), .write spc, .queryEv .measVolt, .queryEv .measCurr]
            if protExceeds cfg.voltageLimit voltage then
              (.tripped, { st with instr := sI, trace := newTrace })
            else if protExceeds cfg.currentLimit actualCurrent then
              (.tripped, { st with instr := sI, trace := newTrace })
            else
              let lists := appendSample st.currents st.voltages st.powers
                actualCurrent voltage power
              runLoop M cfg flag fuel (count + 1)
                { instr := sI, value := st.value + sweepStepOf cfg,
                  currents := lists.1, voltages := lists.2.1, powers := lists.2.2,
                  trace := newTrace }

/-- The loop state at loop entry: the adapter state produced by the
configuration phase, value = sweep_start, empty data lists, and the trace
collected so far. -/
def initLoopState (s : σ) (cfg : Config) (tr : List Event) : LoopState σ :=
  { instr := s, value := cfg.istart, currents := [], voltages := [], powers := [], trace := tr }

/-- The whole of IVAppCC.start_sweep (main.py lines 281-644): validation,
configuration phase, measurement loop, the INPUT OFF + close shutdown that
follows the loop in the try block, and the analysis of the collected data.
A configuration-phase failure propagates to the outer handler without any
shutdown; a failing INPUT OFF write skips close() and the analysis.  The
finally block always clears sweep_running. -/
def startSweep (M : Instr σ) (cfg : Config) (s0 : σ) (flag : ℕ → Bool) : RunResult :=
  match validate cfg with
  | some e =>
    { outcome := .invalid e, trace := [], currents := [], voltages := [], powers := [],
      analysis := none, sweepRunning := false }
  | none =>
    match configPhase M cfg s0 with
    | (tr, none) =>
      { outcome := .setupFault, trace := tr, currents := [], voltages := [], powers := [],
        analysis := none, sweepRunning := false }
    | (tr, some s) =>
      let res := runLoop M cfg flag (totalSteps cfg) 0 (initLoopState s cfg tr)
      let st := res.2
      match M.write st.instr .inputOff with
      | none =>
        { outcome := .done res.1 false, trace := st.trace ++ [.write .inputOff],
          currents := st.currents, voltages := st.voltages, powers := st.powers,
          analysis := none, sweepRunning := false }
      | some _ =>
        { outcome := .done res.1 true, trace := st.trace ++ [.write .inputOff, .closed],
          currents := st.currents, voltages := st.voltages, powers := st.powers,
          analysis := some (analyze st.currents st.voltages st.powers),
          sweepRunning := false }

/-- An always-false stop flag. -/
def ffFlag : ℕ → Bool := fun _ => false

/-- A deterministic test adapter over a query counter: writes always
succeed, FUNC? reports CC, MEAS:VOLT? returns vAt of the counter and
MEAS:CURR? returns iAt of the counter and advances it, so iteration k of
the loop measures (vAt k, iAt k). -/
def tableInstr (vAt iAt : ℕ → ℚ) : Instr ℕ where
  write s _ := some s
  query s q :=
    match q with
    | .funcQ => some (s, .modeResp .CC)
    | .measVolt => some (s, .num (vAt s))
    | .measCurr => some (s + 1, .num (iAt s))

/-- An adapter whose queries all fail: opening and writing succeed but the
first query (FUNC?) raises, as a broken or disconnected VISA resource
would. -/
def funcFailInstr : Instr Unit where
  write s _ := some s
  query _ _ := none

lemma setpointCmd_ne_inputOff (m : Mode) (x : ℚ) : setpointCmd m x ≠ Cmd.inputOff := by
  cases m <;> simp [setpointCmd]

lemma cfgW_countP (M : Instr σ) (st : List Event × Option σ) (c : Cmd ℚ) (p : Event → Bool)
    (hp : p (.write c) = false) :
    ((cfgW M st c).1).countP p = (st.1).countP p := by
  rcases st with ⟨tr, os⟩
  cases os with
  | none => rfl
  | some s => simp [cfgW, List.countP_append, List.countP_cons, hp]

lemma cfgQFunc_countP (M : Instr σ) (mode : Mode) (st : List Event × Option σ) (p : Event → Bool)
    (h1 : p (.queryEv .funcQ) = false) (h2 : p (.write (.func mode)) = false) :
    ((cfgQFunc M mode st).1).countP p = (st.1).countP p := by
  rcases st with ⟨tr, os⟩
  cases os with
  | none => rfl
  | some s =>
    simp only [cfgQFunc]
    cases hq : M.query s .funcQ with
    | none => simp [List.countP_append, List.countP_cons, h1]
    | some pr =>
      obtain ⟨s1, r⟩ := pr
      by_cases hr : r = .modeResp mode
      · simp [hr, List.countP_append, List.countP_cons, h1]
      · simp [hr, List.countP_append, List.countP_cons, h1, h2]

lemma configPhase_countP (M : Instr σ) (cfg : Config) (s0 : σ) (p : Event → Bool)
    (hOpen : p .opened = false) (h1 : p (.queryEv .funcQ) = false)
    (hw : ∀ c : Cmd ℚ, c ≠ Cmd.inputOff → p (.write c) = false) :
    ((configPhase M cfg s0).1).countP p = 0 := by
  have w1 : p (.write .rst) = false := hw _ (by intro h; cases h)
  have w2 : p (.write .cls) = false := hw _ (by intro h; cases h)
  have w3 : p (.write (.func cfg.mode)) = false := hw _ (by intro h; cases h)
  have w4 : ∀ b, p (.write (.voltProtStat b)) = false := fun b => hw _ (by intro h; cases h)
  have w5 : ∀ l, p (.write (.voltProt l)) = false := fun l => hw _ (by intro h; cases h)
  have w6 : ∀ b, p (.write (.currProtStat b)) = false := fun b => hw _ (by intro h; cases h)
  have w7 : ∀ l, p (.write (.currProt l)) = false := fun l => hw _ (by intro h; cases h)
  have w8 : p (.write (.remSens cfg.fourWire)) = false := hw _ (by intro h; cases h)
  have w9 : p (.write .inputOn) = false := hw _ (by intro h; cases h)
  have w10 : p (.write (setpointCmd cfg.mode cfg.istart)) = false :=
    hw _ (setpointCmd_ne_inputOff cfg.mode cfg.istart)
  simp only [configPhase]
  rcases hvl : cfg.voltageLimit with _ | lv <;> rcases hil : cfg.currentLimit with _ | li <;>
    cases hsim : cfg.simulated <;>
      dsimp only <;>
        repeat first
          | rw [if_pos (show true = true from rfl)]
          | rw [if_neg (show ¬ false = true by simp)]
          | rw [cfgW_countP M _ Cmd.inputOn p w9]
          | rw [cfgW_countP M _ (setpointCmd cfg.mode cfg.istart) p w10]
          | rw [cfgW_countP M _ (Cmd.remSens cfg.fourWire) p w8]
          | rw [cfgW_countP M _ (Cmd.currProtStat false) p (w6 false)]
          | rw [cfgW_countP M _ (Cmd.currProtStat true) p (w6 true)]
          | rw [cfgW_countP M _ (Cmd.currProt li) p (w7 li)]
          | rw [cfgW_countP M _ (Cmd.voltProtStat false) p (w4 false)]
          | rw [cfgW_countP M _ (Cmd.voltProtStat true) p (w4 true)]
          | rw [cfgW_countP M _ (Cmd.voltProt lv) p (w5 lv)]
          | rw [cfgQFunc_countP M cfg.mode _ p h1 w3]
          | rw [cfgW_countP M _ Cmd.cls p w2]
          | rw [cfgW_countP M _ Cmd.rst p w1]
          | simp [List.countP_cons, List.countP_nil, hOpen]

lemma runLoop_countP (M : Instr σ) (cfg : Config) (flag : ℕ → Bool) (p : Event → Bool)
    (hpoll : ∀ b, p (.poll b) = false) (hq : ∀ q, p (.queryEv q) = false)
    (hsp : ∀ x, p (.write (setpointCmd cfg.mode x)) = false) :
    ∀ fuel count st,
      (((runLoop M cfg flag fuel count st).2).trace).countP p = (st.trace).countP p := by
  intro fuel
  induction fuel with
  | zero => intro count st; rfl
  | succ f ih =>
    intro count st
    simp only [runLoop]
    split
    · simp [List.countP_append, List.countP_cons, hpoll]
    · split
      · simp [List.countP_append, List.countP_cons, hpoll, hsp]
      · split
        · simp [List.countP_append, List.countP_cons, hpoll, hsp, hq]
        · simp [List.countP_append, List.countP_cons, hpoll, hsp, hq]
        · split
          · simp [List.countP_append, List.countP_cons, hpoll, hsp, hq]
          · simp [List.countP_append, List.countP_cons, hpoll, hsp, hq]
          · split
            · simp [List.countP_append, List.countP_cons, hpoll, hsp, hq]
            · split
              · simp [List.countP_append, List.countP_cons, hpoll, hsp, hq]
              · rw [ih]
                simp [List.countP_append, List.countP_cons, hpoll, hsp, hq]

lemma isOffW_write_ne (c : Cmd ℚ) (h : c ≠ Cmd.inputOff) : isOffW (.write c) = false := by
  cases c <;> first | rfl | exact absurd rfl h

lemma configPhase_countOffW (M : Instr σ) (cfg : Config) (s0 : σ) :
    countOffW (configPhase M cfg s0).1 = 0 :=
  configPhase_countP M cfg s0 isOffW rfl rfl (fun c hc => isOffW_write_ne c hc)

lemma configPhase_countCloseEv (M : Instr σ) (cfg : Config) (s0 : σ) :
    countCloseEv (configPhase M cfg s0).1 = 0 :=
  configPhase_countP M cfg s0 isClosedE rfl rfl (fun _ _ => rfl)

lemma configPhase_countPollEv (M : Instr σ) (cfg : Config) (s0 : σ) :
    countPollEv (configPhase M cfg s0).1 = 0 :=
  configPhase_countP M cfg s0 isPollE rfl rfl (fun _ _ => rfl)

lemma runLoop_countOffW (M : Instr σ) (cfg : Config) (flag : ℕ → Bool)
    (fuel count : ℕ) (st : LoopState σ) :
    countOffW ((runLoop M cfg flag fuel count st).2).trace = countOffW st.trace :=
  runLoop_countP M cfg flag isOffW (fun _ => rfl) (fun _ => rfl)
    (fun x => isOffW_write_ne _ (setpointCmd_ne_inputOff cfg.mode x)) fuel count st

lemma runLoop_countCloseEv (M : Instr σ) (cfg : Config) (flag : ℕ → Bool)
    (fuel count : ℕ) (st : LoopState σ) :
    countCloseEv ((runLoop M cfg flag fuel count st).2).trace = countCloseEv st.trace :=
  runLoop_countP M cfg flag isClosedE (fun _ => rfl) (fun _ => rfl) (fun _ => rfl) fuel count st

/-- A validation-passing CC configuration naming a real (non-simulated)
instrument. -/
def cfgFail : Config :=
  { mode := .CC, istart := 0, iend := 1, istep := 1, voltageLimit := some 10,
    currentLimit := none, fourWire := false, instrSelected := true, simulated := false }

/-- C1 counterexample: with a validation-passing configuration and an
adapter that opens and accepts writes but whose FUNC? query raises, the
sweep leaves the validation phase and opens the adapter, yet terminates
(outer exception handler) with no INPUT OFF write and no close() at all —
the guaranteed-shutdown property fails on the configuration-error path. -/
theorem claimC1_counterexample :
    validate cfgFail = none ∧
    Event.opened ∈ (startSweep funcFailInstr cfgFail () ffFlag).trace ∧
    (startSweep funcFailInstr cfgFail () ffFlag).outcome = .setupFault ∧
    countOffW (startSweep funcFailInstr cfgFail () ffFlag).trace = 0 ∧
    countCloseEv (startSweep funcFailInstr cfgFail () ffFlag).trace = 0 := by
  with_unfolding_all decide

/-- C1 as amended: once the configuration phase has completed and the
measurement loop has been entered, every terminal path (normal completion,
user stop, protection trip, in-loop communication error) issues exactly
one INPUT OFF write, and exactly one close() when that write succeeds (a
failing INPUT OFF write skips the close); but a sweep that fails between
adapter opening and loop entry performs no INPUT OFF and no close, and a
rejected configuration performs no adapter interaction at all. -/
theorem claimC1_amended :
    ∀ (σ : Type) (M : Instr σ) (cfg : Config) (s0 : σ) (flag : ℕ → Bool) (r : RunResult),
      startSweep M cfg s0 flag = r →
      (∀ ex : LoopExit, r.outcome = .done ex true →
        countOffW r.trace = 1 ∧ countCloseEv r.trace = 1) ∧
      (∀ ex : LoopExit, r.outcome = .done ex false →
        countOffW r.trace = 1 ∧ countCloseEv r.trace = 0) ∧
      ((r.outcome = .setupFault ∨ ∃ e, r.outcome = .invalid e) →
        countOffW r.trace = 0 ∧ countCloseEv r.trace = 0) := by
  intro σ M cfg s0 flag r hr
  cases hval : validate cfg with
  | some e =>
    have hr2 : r = { outcome := .invalid e, trace := [], currents := [], voltages := [],
                     powers := [], analysis := none, sweepRunning := false } := by
      rw [← hr]; simp [startSweep, hval]
    subst hr2
    exact ⟨fun ex h => by simp at h, fun ex h => by simp at h, fun _ => ⟨rfl, rfl⟩⟩
  | none =>
    cases hcp : configPhase M cfg s0 with
    | mk tr os =>
      have htr : (configPhase M cfg s0).1 = tr := by rw [hcp]
      have hoff0 : countOffW tr = 0 := by
        rw [← htr]; exact configPhase_countOffW M cfg s0
      have hcl0 : countCloseEv tr = 0 := by
        rw [← htr]; exact configPhase_countCloseEv M cfg s0
      cases os with
      | none =>
        have hr2 : r = { outcome := .setupFault, trace := tr, currents := [], voltages := [],
                         powers := [], analysis := none, sweepRunning := false } := by
          rw [← hr]; simp [startSweep, hval, hcp]
        subst hr2
        exact ⟨fun ex h => by simp at h, fun ex h => by simp at h, fun _ => ⟨hoff0, hcl0⟩⟩
      | some s =>
        have hloopOff : List.countP isOffW ((runLoop M cfg flag (totalSteps cfg) 0
            (initLoopState s cfg tr)).2).trace = 0 := by
          have h1 := runLoop_countOffW M cfg flag (totalSteps cfg) 0 (initLoopState s cfg tr)
          rw [countOffW, countOffW] at h1
          rw [h1]
          exact hoff0
        have hloopCl : List.countP isClosedE ((runLoop M cfg flag (totalSteps cfg) 0
            (initLoopState s cfg tr)).2).trace = 0 := by
          have h1 := runLoop_countCloseEv M cfg flag (totalSteps cfg) 0 (initLoopState s cfg tr)
          rw [countCloseEv, countCloseEv] at h1
          rw [h1]
          exact hcl0
        cases hoff : M.write ((runLoop M cfg flag (totalSteps cfg) 0
            (initLoopState s cfg tr)).2).instr Cmd.inputOff with
        | none =>
          have hr2 : r =
              { outcome := .done (runLoop M cfg flag (totalSteps cfg) 0 (initLoopState s cfg tr)).1 false,
                trace := ((runLoop M cfg flag (totalSteps cfg) 0 (initLoopState s cfg tr)).2).trace ++ [.write .inputOff],
                currents := ((runLoop M cfg flag (totalSteps cfg) 0 (initLoopState s cfg tr)).2).currents,
                voltages := ((runLoop M cfg flag (totalSteps cfg) 0 (initLoopState s cfg tr)).2).voltages,
                powers := ((runLoop M cfg flag (totalSteps cfg) 0 (initLoopState s cfg tr)).2).powers,
                analysis := none, sweepRunning := false } := by
            rw [← hr]; simp [startSweep, hval, hcp, hoff]
          subst hr2
          refine ⟨fun ex h => by simp at h, fun ex h => ?_, fun hc => ?_⟩
          · constructor
            · rw [countOffW, List.countP_append, hloopOff]
              rfl
            · rw [countCloseEv, List.countP_append, hloopCl]
              rfl
          · rcases hc with hc | ⟨e, hc⟩ <;> simp at hc
        | some s2 =>
          have hr2 : r =
              { outcome := .done (runLoop M cfg flag (totalSteps cfg) 0 (initLoopState s cfg tr)).1 true,
                trace := ((runLoop M cfg flag (totalSteps cfg) 0 (initLoopState s cfg tr)).2).trace ++ [.write .inputOff, .closed],
                currents := ((runLoop M cfg flag (totalSteps cfg) 0 (initLoopState s cfg tr)).2).currents,
                voltages := ((runLoop M cfg flag (totalSteps cfg) 0 (initLoopState s cfg tr)).2).voltages,
                powers := ((runLoop M cfg flag (totalSteps cfg) 0 (initLoopState s cfg tr)).2).powers,
                analysis := some (analyze
                  ((runLoop M cfg flag (totalSteps cfg) 0 (initLoopState s cfg tr)).2).currents
                  ((runLoop M cfg flag (totalSteps cfg) 0 (initLoopState s cfg tr)).2).voltages
                  ((runLoop M cfg flag (totalSteps cfg) 0 (initLoopState s cfg tr)).2).powers),
                sweepRunning := false } := by
            rw [← hr]; simp [startSweep, hval, hcp, hoff]
          subst hr2
          refine ⟨fun ex h => ?_, fun ex h => by simp at h, fun hc => ?_⟩
          · constructor
            · rw [countOffW, List.countP_append, hloopOff]
              rfl
            · rw [countCloseEv, List.countP_append, hloopCl]
              rfl
          · rcases hc with hc | ⟨e, hc⟩ <;> simp at hc

/-- A validation-passing CC configuration for the simulated-adapter path. -/
def cfgSim : Config :=
  { mode := .CC, istart := 0, iend := 3, istep := 1, voltageLimit := some 100,
    currentLimit := none, fourWire := false, instrSelected := true, simulated := true }

/-- A test adapter measuring a rising voltage ramp at constant current. -/
def rampInstr : Instr ℕ := tableInstr (fun n => (n : ℚ)) (fun _ => 1)

/-- Witness for the amended C1: a completed sweep issues INPUT OFF and
close exactly once. -/
theorem claimC1_witness :
    (startSweep rampInstr cfgSim 0 ffFlag).outcome = .done .completed true ∧
    countOffW (startSweep rampInstr cfgSim 0 ffFlag).trace = 1 ∧
    countCloseEv (startSweep rampInstr cfgSim 0 ffFlag).trace = 1 := by
  refine ⟨by with_unfolding_all decide, ?_⟩
  exact (claimC1_amended ℕ rampInstr cfgSim 0 ffFlag _ rfl).1 .completed
    (by with_unfolding_all decide)

/-- C4: a configuration is rejected exactly when CC mode lacks a voltage
limit, CV mode lacks a current limit, the step is zero, or no instrument
is selected; and a rejected sweep performs no adapter interaction at all
(empty trace, hence no open/write/query), collects no samples, and leaves
the controller back in the ready state (sweep_running cleared). -/
theorem claimC4_validation :
    ∀ cfg : Config,
      ((validate cfg ≠ none) ↔
        ((cfg.mode = .CC ∧ cfg.voltageLimit = none) ∨
          (cfg.mode = .CV ∧ cfg.currentLimit = none) ∨
          cfg.istep = 0 ∨ cfg.instrSelected = false)) ∧
      ∀ (σ : Type) (M : Instr σ) (s0 : σ) (flag : ℕ → Bool) (e : VError),
        validate cfg = some e →
        startSweep M cfg s0 flag =
          { outcome := .invalid e, trace := [], currents := [], voltages := [],
            powers := [], analysis := none, sweepRunning := false } := by
  intro cfg
  constructor
  · unfold validate
    split_ifs with h1 h2 h3 h4 <;> simp_all
  · intro σ M s0 flag e hval
    simp [startSweep, hval]

/-- A CC configuration with the mandatory voltage limit missing. -/
def cfgNoVlim : Config :=
  { mode := .CC, istart := 0, iend := 1, istep := 1, voltageLimit := none,
    currentLimit := none, fourWire := false, instrSelected := true, simulated := true }

/-- Witness for C4: CC mode without a voltage limit is rejected before any
adapter call. -/
theorem claimC4_witness :
    validate cfgNoVlim = some .safetyVolt ∧
    startSweep funcFailInstr cfgNoVlim () ffFlag =
      { outcome := .invalid .safetyVolt, trace := [], currents := [], voltages := [],
        powers := [], analysis := none, sweepRunning := false } := by
  refine ⟨by with_unfolding_all decide, ?_⟩
  exact (claimC4_validation cfgNoVlim).2 Unit funcFailInstr () ffFlag .safetyVolt
    (by with_unfolding_all decide)

lemma appendSample_cases (cs vs ps : List ℚ) (i v p : ℚ) :
    appendSample cs vs ps i v p = (cs ++ [i], vs ++ [v], ps ++ [p]) ∨
    appendSample cs vs ps i v p = (cs, vs, ps) := by
  unfold appendSample
  split
  · exact Or.inl rfl
  · exact Or.inr rfl

lemma mem_appendSample_voltages (cs vs ps : List ℚ) (i v p x : ℚ)
    (hx : x ∈ (appendSample cs vs ps i v p).2.1) : x ∈ vs ∨ x = v := by
  rcases appendSample_cases cs vs ps i v p with h | h <;> rw [h] at hx
  · simp at hx
    exact hx
  · exact Or.inl hx

lemma mem_appendSample_currents (cs vs ps : List ℚ) (i v p x : ℚ)
    (hx : x ∈ (appendSample cs vs ps i v p).1) : x ∈ cs ∨ x = i := by
  rcases appendSample_cases cs vs ps i v p with h | h <;> rw [h] at hx
  · simp at hx
    exact hx
  · exact Or.inl hx

lemma runLoop_trip (M : Instr σ) (cfg : Config) (flag : ℕ → Bool)
    (fuel count : ℕ) (st : LoopState σ) (sW sV sI : σ) (v i lv : ℚ)
    (hfl : flag count = false)
    (hw : M.write st.instr (setpointCmd cfg.mode st.value) = some sW)
    (hqv : M.query sW .measVolt = some (sV, .num v))
    (hqc : M.query sV .measCurr = some (sI, .num i))
    (hlv : cfg.voltageLimit = some lv) (hgt : v > lv) :
    (runLoop M cfg flag (fuel + 1) count st).1 = .tripped ∧
    ((runLoop M cfg flag (fuel + 1) count st).2).currents = st.currents ∧
    ((runLoop M cfg flag (fuel + 1) count st).2).voltages = st.voltages ∧
    ((runLoop M cfg flag (fuel + 1) count st).2).powers = st.powers := by
  have hprot : protExceeds cfg.voltageLimit v = true := by
    simp [protExceeds, hlv, hgt]
  simp [runLoop, hfl, hw, hqv, hqc, hprot]

lemma runLoop_tripCurr (M : Instr σ) (cfg : Config) (flag : ℕ → Bool)
    (fuel count : ℕ) (st : LoopState σ) (sW sV sI : σ) (v i li : ℚ)
    (hfl : flag count = false)
    (hw : M.write st.instr (setpointCmd cfg.mode st.value) = some sW)
    (hqv : M.query sW .measVolt = some (sV, .num v))
    (hqc : M.query sV .measCurr = some (sI, .num i))
    (hli : cfg.currentLimit = some li) (hgt : i > li) :
    (runLoop M cfg flag (fuel + 1) count st).1 = .tripped ∧
    ((runLoop M cfg flag (fuel + 1) count st).2).currents = st.currents ∧
    ((runLoop M cfg flag (fuel + 1) count st).2).voltages = st.voltages ∧
    ((runLoop M cfg flag (fuel + 1) count st).2).powers = st.powers := by
  have hprot : protExceeds cfg.currentLimit i = true := by
    simp [protExceeds, hli, hgt]
  simp only [runLoop, hfl, Bool.false_eq_true, if_false, hw, hqv, hqc, hprot]
  split <;> simp

lemma runLoop_protBound (M : Instr σ) (cfg : Config) (flag : ℕ → Bool) :
    ∀ (fuel count : ℕ) (st : LoopState σ),
      (∀ lv, cfg.voltageLimit = some lv → ∀ v ∈ st.voltages, v ≤ lv) →
      (∀ li, cfg.currentLimit = some li → ∀ i ∈ st.currents, i ≤ li) →
      (∀ lv, cfg.voltageLimit = some lv →
        ∀ v ∈ ((runLoop M cfg flag fuel count st).2).voltages, v ≤ lv) ∧
      (∀ li, cfg.currentLimit = some li →
        ∀ i ∈ ((runLoop M cfg flag fuel count st).2).currents, i ≤ li) := by
  intro fuel
  induction fuel with
  | zero => intro count st hv hi; exact ⟨hv, hi⟩
  | succ f ih =>
    intro count st hv hi
    simp only [runLoop]
    repeat' first
      | exact ⟨hv, hi⟩
      | split
    rename_i hp1 hp2
    apply ih
    · intro lv hlv x hx
      rcases mem_appendSample_voltages _ _ _ _ _ _ x hx with hx1 | hx1
      · exact hv lv hlv x hx1
      · subst hx1
        rw [hlv] at hp1
        simp [protExceeds, not_lt] at hp1
        exact hp1
    · intro li hli x hx
      rcases mem_appendSample_currents _ _ _ _ _ _ x hx with hx1 | hx1
      · exact hi li hli x hx1
      · subst hx1
        rw [hli] at hp2
        simp [protExceeds, not_lt] at hp2
        exact hp2

/-- C3: protection.  Every sample in the final SampleSet of a sweep
respects the configured limits (so a measurement that strictly exceeds a
present limit is never appended); the check runs after both measurements
and before the dedup/append step, and a violating measurement aborts the
iteration immediately with the tripped exit and no change to the three
lists — stated separately for a measured voltage above the voltage limit
and for a measured current above the current limit; and a tripped sweep
whose shutdown succeeds still carries the analysis of the partial
SampleSet collected before the trip. -/
theorem claimC3_protection :
    ∀ (σ : Type) (M : Instr σ) (cfg : Config) (s0 : σ) (flag : ℕ → Bool) (r : RunResult),
      startSweep M cfg s0 flag = r →
      (∀ lv, cfg.voltageLimit = some lv → ∀ v ∈ r.voltages, v ≤ lv) ∧
      (∀ li, cfg.currentLimit = some li → ∀ i ∈ r.currents, i ≤ li) ∧
      (∀ ex : LoopExit, r.outcome = .done ex true →
        r.analysis = some (analyze r.currents r.voltages r.powers)) ∧
      (∀ (fuel count : ℕ) (st : LoopState σ) (sW sV sI : σ) (v i lv : ℚ),
        flag count = false →
        M.write st.instr (setpointCmd cfg.mode st.value) = some sW →
        M.query sW .measVolt = some (sV, .num v) →
        M.query sV .measCurr = some (sI, .num i) →
        cfg.voltageLimit = some lv → v > lv →
        (runLoop M cfg flag (fuel + 1) count st).1 = .tripped ∧
        ((runLoop M cfg flag (fuel + 1) count st).2).currents = st.currents ∧
        ((runLoop M cfg flag (fuel + 1) count st).2).voltages = st.voltages ∧
        ((runLoop M cfg flag (fuel + 1) count st).2).powers = st.powers) ∧
      (∀ (fuel count : ℕ) (st : LoopState σ) (sW sV sI : σ) (v i li : ℚ),
        flag count = false →
        M.write st.instr (setpointCmd cfg.mode st.value) = some sW →
        M.query sW .measVolt = some (sV, .num v) →
        M.query sV .measCurr = some (sI, .num i) →
        cfg.currentLimit = some li → i > li →
        (runLoop M cfg flag (fuel + 1) count st).1 = .tripped ∧
        ((runLoop M cfg flag (fuel + 1) count st).2).currents = st.currents ∧
        ((runLoop M cfg flag (fuel + 1) count st).2).voltages = st.voltages ∧
        ((runLoop M cfg flag (fuel + 1) count st).2).powers = st.powers) := by
  intro σ M cfg s0 flag r hr
  have htrip := fun fuel count st sW sV sI v i lv hfl hw hqv hqc hlv hgt =>
    runLoop_trip M cfg flag fuel count st sW sV sI v i lv hfl hw hqv hqc hlv hgt
  have htripc := fun fuel count st sW sV sI v i li hfl hw hqv hqc hli hgt =>
    runLoop_tripCurr M cfg flag fuel count st sW sV sI v i li hfl hw hqv hqc hli hgt
  cases hval : validate cfg with
  | some e =>
    have hr2 : r = { outcome := .invalid e, trace := [], currents := [], voltages := [],
                     powers := [], analysis := none, sweepRunning := false } := by
      rw [← hr]; simp [startSweep, hval]
    subst hr2
    refine ⟨?_, ?_, ?_, htrip, htripc⟩
    · intro lv hlv v hv; simp at hv
    · intro li hli i hi2; simp at hi2
    · intro ex h; simp at h
  | none =>
    cases hcp : configPhase M cfg s0 with
    | mk tr os =>
      cases os with
      | none =>
        have hr2 : r = { outcome := .setupFault, trace := tr, currents := [], voltages := [],
                         powers := [], analysis := none, sweepRunning := false } := by
          rw [← hr]; simp [startSweep, hval, hcp]
        subst hr2
        refine ⟨?_, ?_, ?_, htrip, htripc⟩
        · intro lv hlv v hv; simp at hv
        · intro li hli i hi2; simp at hi2
        · intro ex h; simp at h
      | some s =>
        have hbound := runLoop_protBound M cfg flag (totalSteps cfg) 0 (initLoopState s cfg tr)
          (by intro lv hlv v hv; simp [initLoopState] at hv)
          (by intro li hli i hi2; simp [initLoopState] at hi2)
        cases hoff : M.write ((runLoop M cfg flag (totalSteps cfg) 0
            (initLoopState s cfg tr)).2).instr Cmd.inputOff with
        | none =>
          have hr2 : r =
              { outcome := .done (runLoop M cfg flag (totalSteps cfg) 0 (initLoopState s cfg tr)).1 false,
                trace := ((runLoop M cfg flag (totalSteps cfg) 0 (initLoopState s cfg tr)).2).trace ++ [.write .inputOff],
                currents := ((runLoop M cfg flag (totalSteps cfg) 0 (initLoopState s cfg tr)).2).currents,
                voltages := ((runLoop M cfg flag (totalSteps cfg) 0 (initLoopState s cfg tr)).2).voltages,
                powers := ((runLoop M cfg flag (totalSteps cfg) 0 (initLoopState s cfg tr)).2).powers,
                analysis := none, sweepRunning := false } := by
            rw [← hr]; simp [startSweep, hval, hcp, hoff]
          subst hr2
          refine ⟨hbound.1, hbound.2, ?_, htrip, htripc⟩
          intro ex h; simp at h
        | some s2 =>
          have hr2 : r =
              { outcome := .done (runLoop M cfg flag (totalSteps cfg) 0 (initLoopState s cfg tr)).1 true,
                trace := ((runLoop M cfg flag (totalSteps cfg) 0 (initLoopState s cfg tr)).2).trace ++ [.write .inputOff, .closed],
                currents := ((runLoop M cfg flag (totalSteps cfg) 0 (initLoopState s cfg tr)).2).currents,
                voltages := ((runLoop M cfg flag (totalSteps cfg) 0 (initLoopState s cfg tr)).2).voltages,
                powers := ((runLoop M cfg flag (totalSteps cfg) 0 (initLoopState s cfg tr)).2).powers,
                analysis := some (analyze
                  ((runLoop M cfg flag (totalSteps cfg) 0 (initLoopState s cfg tr)).2).currents
                  ((runLoop M cfg flag (totalSteps cfg) 0 (initLoopState s cfg tr)).2).voltages
                  ((runLoop M cfg flag (totalSteps cfg) 0 (initLoopState s cfg tr)).2).powers),
                sweepRunning := false } := by
            rw [← hr]; simp [startSweep, hval, hcp, hoff]
          subst hr2
          refine ⟨hbound.1, hbound.2, ?_, htrip, htripc⟩
          intro ex h
          rfl

/-- A test adapter whose measured voltage ramps in steps of 5 volts. -/
def trippingInstr : Instr ℕ := tableInstr (fun n => 5 * (n : ℚ)) (fun _ => 1)

/-- A CC configuration whose 7 volt limit the ramp exceeds on the third
iteration. -/
def cfgTrip : Config :=
  { mode := .CC, istart := 0, iend := 5, istep := 1, voltageLimit := some 7,
    currentLimit := none, fourWire := false, instrSelected := true, simulated := true }

/-- A test adapter with constant measured voltage 1 V whose measured
current ramps in steps of 2 amps. -/
def trippingInstrC : Instr ℕ := tableInstr (fun _ => 1) (fun n => 2 * (n : ℚ))

/-- A CC configuration whose 3 amp current limit the current ramp exceeds
on the third iteration (the 100 volt voltage limit is never reached). -/
def cfgTripC : Config :=
  { mode := .CC, istart := 0, iend := 5, istep := 1, voltageLimit := some 100,
    currentLimit := some 3, fourWire := false, instrSelected := true, simulated := true }

/-- Witness for C3: on the voltage-ramp adapter the sweep trips on the
third measurement, the partial SampleSet of two samples is retained (every
voltage within the 7 volt limit) and analyzed; on the current-ramp adapter
the 4 amp third measurement exceeds the 3 amp current limit, the sweep
trips and only the two in-limit currents are retained. -/
theorem claimC3_witness :
    (startSweep trippingInstr cfgTrip 0 ffFlag).outcome = .done .tripped true ∧
    (startSweep trippingInstr cfgTrip 0 ffFlag).voltages = [0, 5] ∧
    (5 : ℚ) ∈ (startSweep trippingInstr cfgTrip 0 ffFlag).voltages ∧
    (5 : ℚ) ≤ 7 ∧
    (startSweep trippingInstrC cfgTripC 0 ffFlag).outcome = .done .tripped true ∧
    (startSweep trippingInstrC cfgTripC 0 ffFlag).currents = [0, 2] ∧
    (2 : ℚ) ∈ (startSweep trippingInstrC cfgTripC 0 ffFlag).currents ∧
    (2 : ℚ) ≤ 3 := by
  refine ⟨by with_unfolding_all decide, by with_unfolding_all decide,
    by with_unfolding_all decide, ?_,
    by with_unfolding_all decide, by with_unfolding_all decide,
    by with_unfolding_all decide, ?_⟩
  · exact (claimC3_protection ℕ trippingInstr cfgTrip 0 ffFlag _ rfl).1 7 rfl 5
      (by with_unfolding_all decide)
  · exact (claimC3_protection ℕ trippingInstrC cfgTripC 0 ffFlag _ rfl).2.1 3 rfl 2
      (by with_unfolding_all decide)

/-- The parallel-array invariant of the three data lists: equal lengths
and, at every index, power = voltage * current. -/
def SampleInv (cs vs ps : List ℚ) : Prop :=
  cs.length = vs.length ∧ vs.length = ps.length ∧
  ∀ j, j < ps.length → ps.getD j 0 = vs.getD j 0 * cs.getD j 0

lemma getD_append_left (l1 l2 : List ℚ) (j : ℕ) (h : j < l1.length) :
    (l1 ++ l2).getD j 0 = l1.getD j 0 := by
  induction l1 generalizing j with
  | nil => simp at h
  | cons x xs ih =>
    cases j with
    | zero => rfl
    | succ j0 => simpa using ih j0 (by simpa using h)

lemma getD_concat_length (l : List ℚ) (a : ℚ) : (l ++ [a]).getD l.length 0 = a := by
  induction l with
  | nil => rfl
  | cons x xs ih => exact ih

lemma appendSample_SampleInv (cs vs ps : List ℚ) (i v : ℚ)
    (h : SampleInv cs vs ps) :
    SampleInv (appendSample cs vs ps i v (v * i)).1 (appendSample cs vs ps i v (v * i)).2.1
      (appendSample cs vs ps i v (v * i)).2.2 := by
  obtain ⟨h1, h2, h3⟩ := h
  rcases appendSample_cases cs vs ps i v (v * i) with hc | hc <;> rw [hc]
  · refine ⟨by simp [h1], by simp [h2], ?_⟩
    intro j hj
    simp only [List.length_append, List.length_cons, List.length_nil, Nat.add_zero] at hj
    rcases Nat.lt_or_ge j ps.length with hlt | hge
    · rw [getD_append_left ps _ j hlt, getD_append_left vs _ j (by rw [h2]; exact hlt),
        getD_append_left cs _ j (by rw [h1, h2]; exact hlt)]
      exact h3 j hlt
    · have hj2 : j = ps.length := Nat.le_antisymm (Nat.lt_succ_iff.mp hj) hge
      subst hj2
      have e1 : (ps ++ [v * i]).getD ps.length 0 = v * i := getD_concat_length ps (v * i)
      have e2 : (vs ++ [v]).getD ps.length 0 = v := by
        rw [show ps.length = vs.length from h2.symm]
        exact getD_concat_length vs v
      have e3 : (cs ++ [i]).getD ps.length 0 = i := by
        rw [show ps.length = cs.length from (h1.trans h2).symm]
        exact getD_concat_length cs i
      rw [e1, e2, e3]
  · exact ⟨h1, h2, h3⟩

lemma runLoop_SampleInv (M : Instr σ) (cfg : Config) (flag : ℕ → Bool) :
    ∀ (fuel count : ℕ) (st : LoopState σ),
      SampleInv st.currents st.voltages st.powers →
      SampleInv ((runLoop M cfg flag fuel count st).2).currents
        ((runLoop M cfg flag fuel count st).2).voltages
        ((runLoop M cfg flag fuel count st).2).powers := by
  intro fuel
  induction fuel with
  | zero => intro count st h; exact h
  | succ f ih =>
    intro count st h
    simp only [runLoop]
    repeat' first
      | exact h
      | split
    exact ih _ _ (appendSample_SampleInv st.currents st.voltages st.powers _ _ h)

/-- C10: the parallel-array invariant.  A sample is appended to all three
lists or to none, so after every iteration of the measurement loop (and
at the end of every sweep) the currents, voltages and powers lists have
equal length and every index holds a complete triple with
power = voltage * current. -/
theorem claimC10_parallel :
    ∀ (σ : Type) (M : Instr σ) (cfg : Config) (flag : ℕ → Bool),
      (∀ (fuel count : ℕ) (st : LoopState σ),
        SampleInv st.currents st.voltages st.powers →
        SampleInv ((runLoop M cfg flag fuel count st).2).currents
          ((runLoop M cfg flag fuel count st).2).voltages
          ((runLoop M cfg flag fuel count st).2).powers) ∧
      ∀ (s0 : σ) (r : RunResult), startSweep M cfg s0 flag = r →
        SampleInv r.currents r.voltages r.powers := by
  intro σ M cfg flag
  refine ⟨runLoop_SampleInv M cfg flag, ?_⟩
  intro s0 r hr
  have hnil : SampleInv ([] : List ℚ) [] [] := ⟨rfl, rfl, by intro j hj; simp at hj⟩
  cases hval : validate cfg with
  | some e =>
    have hr2 : r = { outcome := .invalid e, trace := [], currents := [], voltages := [],
                     powers := [], analysis := none, sweepRunning := false } := by
      rw [← hr]; simp [startSweep, hval]
    subst hr2
    exact hnil
  | none =>
    cases hcp : configPhase M cfg s0 with
    | mk tr os =>
      cases os with
      | none =>
        have hr2 : r = { outcome := .setupFault, trace := tr, currents := [], voltages := [],
                         powers := [], analysis := none, sweepRunning := false } := by
          rw [← hr]; simp [startSweep, hval, hcp]
        subst hr2
        exact hnil
      | some s =>
        have hinv := runLoop_SampleInv M cfg flag (totalSteps cfg) 0 (initLoopState s cfg tr) hnil
        cases hoff : M.write ((runLoop M cfg flag (totalSteps cfg) 0
            (initLoopState s cfg tr)).2).instr Cmd.inputOff with
        | none =>
          have hr2 : r =
              { outcome := .done (runLoop M cfg flag (totalSteps cfg) 0 (initLoopState s cfg tr)).1 false,
                trace := ((runLoop M cfg flag (totalSteps cfg) 0 (initLoopState s cfg tr)).2).trace ++ [.write .inputOff],
                currents := ((runLoop M cfg flag (totalSteps cfg) 0 (initLoopState s cfg tr)).2).currents,
                voltages := ((runLoop M cfg flag (totalSteps cfg) 0 (initLoopState s cfg tr)).2).voltages,
                powers := ((runLoop M cfg flag (totalSteps cfg) 0 (initLoopState s cfg tr)).2).powers,
                analysis := none, sweepRunning := false } := by
            rw [← hr]; simp [startSweep, hval, hcp, hoff]
          subst hr2
          exact hinv
        | some s2 =>
          have hr2 : r =
              { outcome := .done (runLoop M cfg flag (totalSteps cfg) 0 (initLoopState s cfg tr)).1 true,
                trace := ((runLoop M cfg flag (totalSteps cfg) 0 (initLoopState s cfg tr)).2).trace ++ [.write .inputOff, .closed],
                currents := ((runLoop M cfg flag (totalSteps cfg) 0 (initLoopState s cfg tr)).2).currents,
                voltages := ((runLoop M cfg flag (totalSteps cfg) 0 (initLoopState s cfg tr)).2).voltages,
                powers := ((runLoop M cfg flag (totalSteps cfg) 0 (initLoopState s cfg tr)).2).powers,
                analysis := some (analyze
                  ((runLoop M cfg flag (totalSteps cfg) 0 (initLoopState s cfg tr)).2).currents
                  ((runLoop M cfg flag (totalSteps cfg) 0 (initLoopState s cfg tr)).2).voltages
                  ((runLoop M cfg flag (totalSteps cfg) 0 (initLoopState s cfg tr)).2).powers),
                sweepRunning := false } := by
            rw [← hr]; simp [startSweep, hval, hcp, hoff]
          subst hr2
          exact hinv

/-- Witness for C10 on a concrete completed sweep of four samples. -/
theorem claimC10_witness :
    (startSweep rampInstr cfgSim 0 ffFlag).currents.length =
      (startSweep rampInstr cfgSim 0 ffFlag).voltages.length ∧
    (startSweep rampInstr cfgSim 0 ffFlag).voltages.length =
      (startSweep rampInstr cfgSim 0 ffFlag).powers.length ∧
    (startSweep rampInstr cfgSim 0 ffFlag).powers.getD 2 0 =
      (startSweep rampInstr cfgSim 0 ffFlag).voltages.getD 2 0 *
        (startSweep rampInstr cfgSim 0 ffFlag).currents.getD 2 0 := by
  have h := (claimC10_parallel ℕ rampInstr cfgSim ffFlag).2 0 _ rfl
  exact ⟨h.1, h.2.1, h.2.2 2 (by with_unfolding_all decide)⟩

lemma runLoop_stop_split (M : Instr σ) (cfg : Config) (flag : ℕ → Bool) :
    ∀ (k fuel count : ℕ) (st : LoopState σ),
      (∀ j, j < k → flag (count + j) = false) → flag (count + k) = true → k < fuel →
      (runLoop M cfg ffFlag k count st).1 = .completed →
      runLoop M cfg flag fuel count st =
        (.userStopped,
          { (runLoop M cfg ffFlag k count st).2 with
              trace := ((runLoop M cfg ffFlag k count st).2).trace ++ [.poll true] }) := by
  intro k
  induction k with
  | zero =>
    intro fuel count st hfalse htrue hk hcomp
    obtain ⟨f, rfl⟩ : ∃ f, fuel = f + 1 := ⟨fuel - 1, by omega⟩
    have ht : flag count = true := by simpa using htrue
    simp [runLoop, ht]
  | succ k ih =>
    intro fuel count st hfalse htrue hk hcomp
    obtain ⟨f, rfl⟩ : ∃ f, fuel = f + 1 := ⟨fuel - 1, by omega⟩
    have h0 : flag count = false := by
      have := hfalse 0 (Nat.succ_pos k)
      simpa using this
    simp only [runLoop, ffFlag, Bool.false_eq_true, if_false, h0] at hcomp ⊢
    split at hcomp
    · simp at hcomp
    · split at hcomp
      · simp at hcomp
      · simp at hcomp
      · split at hcomp
        · simp at hcomp
        · simp at hcomp
        · split at hcomp
          · simp at hcomp
          · split at hcomp
            · simp at hcomp
            · rename_i hp1 hp2
              simp only [if_neg hp1, if_neg hp2]
              exact ih f (count + 1) _
                (by
                  intro j hj
                  have h1 := hfalse (j + 1) (by omega)
                  rw [show count + 1 + j = count + (j + 1) by omega]
                  exact h1)
                (by
                  rw [show count + 1 + k = count + (k + 1) by omega]
                  exact htrue)
                (by omega)
                hcomp

lemma runLoop_completed_polls (M : Instr σ) (cfg : Config) :
    ∀ (k count : ℕ) (st : LoopState σ),
      (runLoop M cfg ffFlag k count st).1 = .completed →
      countPollEv ((runLoop M cfg ffFlag k count st).2).trace = countPollEv st.trace + k := by
  intro k
  induction k with
  | zero => intro count st hcomp; rfl
  | succ kk ih =>
    intro count st hcomp
    simp only [runLoop, ffFlag, Bool.false_eq_true, if_false] at hcomp ⊢
    split at hcomp
    · simp at hcomp
    · split at hcomp
      · simp at hcomp
      · simp at hcomp
      · split at hcomp
        · simp at hcomp
        · simp at hcomp
        · split at hcomp
          · simp at hcomp
          · split at hcomp
            · simp at hcomp
            · rename_i hp1 hp2
              simp only [if_neg hp1, if_neg hp2]
              rw [ih (count + 1) _ hcomp]
              simp [countPollEv, List.countP_append, List.countP_cons, isPollE]
              omega

/-- C9: cooperative cancellation.  The stop flag is polled once per loop
iteration, before the setpoint write, and a poll never interrupts the
atomic write/query sequence of an iteration.  If the first k iterations
run with the flag unread (false) and complete normally, and the flag reads
true at iteration k, then the sweep ends with the user-stopped outcome,
its three data lists are exactly those accumulated by the k completed
iterations (no sample is appended after the flag is observed), the whole
run polls the flag exactly k + 1 times (once per entered iteration), and
the trace after the final poll contains only the shutdown events, no
setpoint write and no further poll. -/
theorem claimC9_cancellation :
    ∀ (σ : Type) (M : Instr σ) (cfg : Config) (s0 : σ) (flag : ℕ → Bool) (k : ℕ) (s1 : σ),
      validate cfg = none →
      (configPhase M cfg s0).2 = some s1 →
      (∀ j, j < k → flag j = false) → flag k = true → k < totalSteps cfg →
      (runLoop M cfg ffFlag k 0 (initLoopState s1 cfg (configPhase M cfg s0).1)).1 = .completed →
      (∃ ok, (startSweep M cfg s0 flag).outcome = .done .userStopped ok) ∧
      (startSweep M cfg s0 flag).currents =
        ((runLoop M cfg ffFlag k 0 (initLoopState s1 cfg (configPhase M cfg s0).1)).2).currents ∧
      (startSweep M cfg s0 flag).voltages =
        ((runLoop M cfg ffFlag k 0 (initLoopState s1 cfg (configPhase M cfg s0).1)).2).voltages ∧
      (startSweep M cfg s0 flag).powers =
        ((runLoop M cfg ffFlag k 0 (initLoopState s1 cfg (configPhase M cfg s0).1)).2).powers ∧
      countPollEv (startSweep M cfg s0 flag).trace = k + 1 ∧
      ∃ tail, (startSweep M cfg s0 flag).trace =
          ((runLoop M cfg ffFlag k 0 (initLoopState s1 cfg (configPhase M cfg s0).1)).2).trace ++
            [.poll true] ++ tail ∧ countPollEv tail = 0 := by
  intro σ M cfg s0 flag k s1 hval hcp2 hfalse htrue hk hcomp
  obtain ⟨tr, hcp⟩ : ∃ tr, configPhase M cfg s0 = (tr, some s1) := by
    refine ⟨(configPhase M cfg s0).1, ?_⟩
    rw [← hcp2]
  have htr1 : (configPhase M cfg s0).1 = tr := by rw [hcp]
  rw [htr1] at hcomp ⊢
  have hsplit := runLoop_stop_split M cfg flag k (totalSteps cfg) 0
    (initLoopState s1 cfg tr)
    (by intro j hj; simpa using hfalse j hj)
    (by simpa using htrue)
    hk hcomp
  have hpolltr : countPollEv tr = 0 := by
    rw [← htr1]; exact configPhase_countPollEv M cfg s0
  have hpollpre : List.countP isPollE
      ((runLoop M cfg ffFlag k 0 (initLoopState s1 cfg tr)).2).trace = k := by
    have h := runLoop_completed_polls M cfg k 0 (initLoopState s1 cfg tr) hcomp
    rw [countPollEv] at h
    rw [h]
    simp [initLoopState, hpolltr]
  cases hoff : M.write ((runLoop M cfg ffFlag k 0 (initLoopState s1 cfg tr)).2).instr
      Cmd.inputOff with
  | none =>
    refine ⟨⟨false, ?_⟩, ?_, ?_, ?_, ?_, ⟨[.write .inputOff], ?_, rfl⟩⟩ <;>
      simp [startSweep, hval, hcp, hsplit, hoff, countPollEv, List.countP_append,
        List.countP_cons, isPollE, hpollpre]
  | some s2 =>
    refine ⟨⟨true, ?_⟩, ?_, ?_, ?_, ?_, ⟨[.write .inputOff, .closed], ?_, rfl⟩⟩ <;>
      simp [startSweep, hval, hcp, hsplit, hoff, countPollEv, List.countP_append,
        List.countP_cons, isPollE, hpollpre]

/-- A stop flag raised from iteration 2 onward. -/
def stopFlag2 : ℕ → Bool := fun n => decide (2 ≤ n)

/-- Witness for C9: stopping after two accepted samples leaves exactly the
two samples and three polls (one per entered iteration). -/
theorem claimC9_witness :
    (startSweep rampInstr cfgSim 0 stopFlag2).voltages = [0, 1] ∧
    countPollEv (startSweep rampInstr cfgSim 0 stopFlag2).trace = 2 + 1 := by
  have h := claimC9_cancellation ℕ rampInstr cfgSim 0 stopFlag2 2 0
    (by with_unfolding_all decide) (by with_unfolding_all decide)
    (by with_unfolding_all decide) (by with_unfolding_all decide)
    (by with_unfolding_all decide) (by with_unfolding_all decide)
  exact ⟨h.2.2.1.trans (by with_unfolding_all decide), h.2.2.2.2.1⟩
